import Mathlib

/-!
# Verification of the ADMM solver core (`src/admm.h`)

This file gives a shallow embedding of the two entry points of the ADMM
solver header — `admm` and `admm_benchmark` — and proves properties of the
iteration loop: step structure, convergence/termination behaviour, the
adaptive penalty rule, positivity of the penalty, warm starting, the
equivalence of the two entry points, and the bookkeeping of the
instrumented variant's history containers.

Modelling choices:

* Matrices are an abstract additive commutative group `M` with a scalar
  action of `ℚ`; the concrete dense-matrix arithmetic (`arma::mat`) is an
  external library.  Elementwise division of a matrix by a scalar `c` is
  `c⁻¹ • input`, and multiplication is `c • u`.
* Scalars (`double` in the source) are modelled as `ℚ`.
* The Frobenius norm `arma::norm(·, "fro")` is an external library call and
  is passed in as a function `normF : M → ℚ`.
* The projection and selection functors are caller-supplied callables,
  passed as functions `M → M` and `M → ℚ → M` (the source mutates in
  place; the embedding returns the mutated value).
* The wall-clock source `get_wall_time()` is modelled as a stream
  `clock : ℕ → ℚ` of timestamps indexed by the number of calls made so
  far; the state carries the call counter, so program order of the calls
  is visible.
* The rank-k eigenprojection of the instrumented variant (sparse view,
  `arma::eigs_sym`, `eigvec * eigvec.t()`) is an external eigensolver
  pipeline, passed as a function `eigProj : M → M` (the target rank
  `ndim` is folded into it).
* The C++ `for(niter = 0; niter < maxiter; niter++)` loop is embedded by
  structural recursion on the remaining iteration budget
  (`fuel = maxiter - niter`), carrying `niter` explicitly so the returned
  count matches the source, including the `niter++; break` on
  convergence.  `maxiter` is an `int`, modelled as `ℤ`; a run starts with
  `fuel = maxiter.toNat`, so a non-positive budget runs zero iterations.
-/

/-- The caller-owned state mutated in place by `admm`:
solution matrix `z`, dual variable `u`, and penalty parameter. -/
structure AdmmState (M : Type) where
  z : M
  u : M
  penalty : ℚ
  deriving Repr, DecidableEq

variable {M : Type} [AddCommGroup M] [SMul ℚ M]

/-- The loop of `admm` (src/admm.h lines 52-85), by structural recursion
on the remaining budget.  Each iteration: snapshot `z_old`, projection
step, selection step, dual update, residual norms, convergence check
(increment and break), else the Boyd et al. penalty adjustment. -/
def admmLoop (projection : M → M) (selection : M → ℚ → M) (normF : M → ℚ)
    (input : M) (admm_adjust tolerance : ℚ) :
    ℕ → ℕ → AdmmState M → ℕ × AdmmState M
  | 0, niter, st => (niter, st)
  | fuel + 1, niter, st =>
      let z_old := st.z
      let x := projection (st.z - st.u + st.penalty⁻¹ • input)
      let z := selection (x + st.u) (1 / st.penalty)
      let u := st.u + x - z
      let rr := normF (x - z)
      let ss := st.penalty * normF (z - z_old)
      if rr < tolerance ∧ ss < tolerance then
        (niter + 1, ⟨z, u, st.penalty⟩)
      else if rr > 10 * ss then
        admmLoop projection selection normF input admm_adjust tolerance
          fuel (niter + 1) ⟨z, admm_adjust⁻¹ • u, st.penalty * admm_adjust⟩
      else if ss > 10 * rr then
        admmLoop projection selection normF input admm_adjust tolerance
          fuel (niter + 1) ⟨z, admm_adjust • u, st.penalty / admm_adjust⟩
      else
        admmLoop projection selection normF input admm_adjust tolerance
          fuel (niter + 1) ⟨z, u, st.penalty⟩

/-- Entry point `admm` (src/admm.h lines 42-88).  Returns the iteration
count together with the final values of the by-reference arguments
`z`, `u`, `admm_penalty`. -/
def admm (projection : M → M) (selection : M → ℚ → M) (normF : M → ℚ)
    (input z u : M) (admm_penalty admm_adjust : ℚ) (maxiter : ℤ)
    (tolerance : ℚ) : ℤ × AdmmState M :=
  let r := admmLoop projection selection normF input admm_adjust tolerance
    maxiter.toNat 0 ⟨z, u, admm_penalty⟩
  ((r.1 : ℤ), r.2)

/-- The caller-owned state of `admm_benchmark`: the `admm` state plus the
error and timing history vectors and the number of wall-clock calls made
so far. -/
structure BenchState (M : Type) where
  z : M
  u : M
  penalty : ℚ
  errs : List ℚ
  times : List ℚ
  clockCalls : ℕ
  deriving Repr, DecidableEq

/-- The loop of `admm_benchmark` (src/admm.h lines 108-170).  Identical
iteration steps to `admmLoop`; in addition each iteration samples the
clock at the start of the body (`t1`), and — after the convergence check
or the penalty adjustment — samples it again (`t2`), appends `t2 - t1`
to `times`, and appends the Frobenius distance between the rank-k
eigenprojection of the current `z` and `truth` to `errs`.  The verbose
iteration-index print has no effect on the state and is not modelled. -/
def admmBenchmarkLoop (projection : M → M) (selection : M → ℚ → M)
    (normF : M → ℚ) (clock : ℕ → ℚ) (eigProj : M → M) (input truth : M)
    (admm_adjust tolerance : ℚ) :
    ℕ → ℕ → BenchState M → ℕ × BenchState M
  | 0, niter, st => (niter, st)
  | fuel + 1, niter, st =>
      let t1 := clock st.clockCalls
      let z_old := st.z
      let x := projection (st.z - st.u + st.penalty⁻¹ • input)
      let z := selection (x + st.u) (1 / st.penalty)
      let u := st.u + x - z
      let rr := normF (x - z)
      let ss := st.penalty * normF (z - z_old)
      if rr < tolerance ∧ ss < tolerance then
        let t2 := clock (st.clockCalls + 1)
        (niter + 1,
          ⟨z, u, st.penalty,
            st.errs ++ [normF (eigProj z - truth)],
            st.times ++ [t2 - t1],
            st.clockCalls + 2⟩)
      else
        let adjusted : ℚ × M :=
          if rr > 10 * ss then (st.penalty * admm_adjust, admm_adjust⁻¹ • u)
          else if ss > 10 * rr then (st.penalty / admm_adjust, admm_adjust • u)
          else (st.penalty, u)
        let t2 := clock (st.clockCalls + 1)
        admmBenchmarkLoop projection selection normF clock eigProj input truth
          admm_adjust tolerance fuel (niter + 1)
          ⟨z, adjusted.2, adjusted.1,
            st.errs ++ [normF (eigProj z - truth)],
            st.times ++ [t2 - t1],
            st.clockCalls + 2⟩

/-- Entry point `admm_benchmark` (src/admm.h lines 93-173).  The
caller-supplied history vectors `errs` and `times` are in-out arguments;
`clockCalls0` is how many times the clock was sampled before the call. -/
def admmBenchmark (projection : M → M) (selection : M → ℚ → M)
    (normF : M → ℚ) (clock : ℕ → ℚ) (eigProj : M → M) (input truth : M)
    (z u : M) (admm_penalty admm_adjust : ℚ) (maxiter : ℤ) (tolerance : ℚ)
    (errs times : List ℚ) (clockCalls0 : ℕ) : ℤ × BenchState M :=
  let r := admmBenchmarkLoop projection selection normF clock eigProj input
    truth admm_adjust tolerance maxiter.toNat 0
    ⟨z, u, admm_penalty, errs, times, clockCalls0⟩
  ((r.1 : ℤ), r.2)

/-! ## Spec-side definitions

The following definitions are written from the specification's wording,
to be compared with the source embedding above. -/

/-- Spec §4.1 step 2: projection step `x ← Π(z − u + input/ρ)`. -/
def specProjectionStep (projection : M → M) (input z u : M) (ρ : ℚ) : M :=
  projection (z - u + ρ⁻¹ • input)

/-- Spec §4.1 step 3: selection step `z ← S(x + u; 1/ρ)`. -/
def specSelectionStep (selection : M → ℚ → M) (x u : M) (ρ : ℚ) : M :=
  selection (x + u) (1 / ρ)

/-- Spec §4.1 step 4: dual update `u ← u + x − z`. -/
def specDualUpdate (u x z : M) : M :=
  u + x - z

/-- Spec §4.1 step 5: primal residual `r = ‖x − z‖_F`. -/
def specPrimalResidual (normF : M → ℚ) (x z : M) : ℚ :=
  normF (x - z)

/-- Spec §4.1 step 5: dual residual `s = ρ·‖z − z_old‖_F`. -/
def specDualResidual (normF : M → ℚ) (ρ : ℚ) (z z_old : M) : ℚ :=
  ρ * normF (z - z_old)

/-- Spec §4.2: the per-iteration wall-clock duration recorded by the
instrumented variant: the difference between the timestamp taken at the
start of the iteration body (clock call number `c`) and the next
timestamp (clock call number `c + 1`). -/
def specIterationDuration (clock : ℕ → ℚ) (c : ℕ) : ℚ :=
  clock (c + 1) - clock c

/-- Spec §4.2: the per-iteration reconstruction error recorded by the
instrumented variant: the Frobenius distance between the rank-k
eigenprojection of the current iterate and the ground truth. -/
def specIterationError (normF : M → ℚ) (eigProj : M → M) (truth z : M) : ℚ :=
  normF (eigProj z - truth)

/-- The identity projection operator (a trivial feasible set). -/
def identityProjection : M → M := fun m => m

/-- The identity selection operator (a trivial proximal operator). -/
def identitySelection : M → ℚ → M := fun m _ => m

/-- Frobenius norm of a 1×1 matrix: the absolute value.  Used to
instantiate the abstract norm on concrete one-entry inputs. -/
def absQ (q : ℚ) : ℚ := if q < 0 then -q else q

/-! ## Helper lemmas -/

/-- One-step unfolding of the loop of `admm`. -/
theorem admmLoop_succ (projection : M → M) (selection : M → ℚ → M)
    (normF : M → ℚ) (input : M) (admm_adjust tolerance : ℚ)
    (fuel niter : ℕ) (st : AdmmState M) :
    admmLoop projection selection normF input admm_adjust tolerance
      (fuel + 1) niter st =
    (let x := projection (st.z - st.u + st.penalty⁻¹ • input)
     let z := selection (x + st.u) (1 / st.penalty)
     let u := st.u + x - z
     let rr := normF (x - z)
     let ss := st.penalty * normF (z - st.z)
     if rr < tolerance ∧ ss < tolerance then
       (niter + 1, ⟨z, u, st.penalty⟩)
     else if rr > 10 * ss then
       admmLoop projection selection normF input admm_adjust tolerance
         fuel (niter + 1) ⟨z, admm_adjust⁻¹ • u, st.penalty * admm_adjust⟩
     else if ss > 10 * rr then
       admmLoop projection selection normF input admm_adjust tolerance
         fuel (niter + 1) ⟨z, admm_adjust • u, st.penalty / admm_adjust⟩
     else
       admmLoop projection selection normF input admm_adjust tolerance
         fuel (niter + 1) ⟨z, u, st.penalty⟩) := rfl

/-! ## Claim theorems -/

/-- C1: For every call to solve with maxiter > 0, each iteration of the
loop performs, in this order: snapshot `z_old = z`; projection step
`x = Π(z − u + input/ρ)`; selection step `z = S(x + u; 1/ρ)`; dual
update `u = u + x − z`; primal residual `r = ‖x − z‖_F`; dual residual
`s = ρ·‖z − z_old‖_F`.  Stated as: any loop entry with at least one
iteration of budget left (which is every iteration of a call with
maxiter > 0) computes exactly the spec's step quantities, the later
steps consuming the earlier steps' outputs. -/
theorem admm_iteration_follows_spec (projection : M → M)
    (selection : M → ℚ → M) (normF : M → ℚ) (input : M)
    (admm_adjust tolerance : ℚ) (fuel niter : ℕ) (st : AdmmState M) :
    admmLoop projection selection normF input admm_adjust tolerance
      (fuel + 1) niter st =
    (let x := specProjectionStep projection input st.z st.u st.penalty
     let z := specSelectionStep selection x st.u st.penalty
     let u := specDualUpdate st.u x z
     let rr := specPrimalResidual normF x z
     let ss := specDualResidual normF st.penalty z st.z
     if rr < tolerance ∧ ss < tolerance then
       (niter + 1, ⟨z, u, st.penalty⟩)
     else if rr > 10 * ss then
       admmLoop projection selection normF input admm_adjust tolerance
         fuel (niter + 1) ⟨z, admm_adjust⁻¹ • u, st.penalty * admm_adjust⟩
     else if ss > 10 * rr then
       admmLoop projection selection normF input admm_adjust tolerance
         fuel (niter + 1) ⟨z, admm_adjust • u, st.penalty / admm_adjust⟩
     else
       admmLoop projection selection normF input admm_adjust tolerance
         fuel (niter + 1) ⟨z, u, st.penalty⟩) := rfl

/-- C2: in any iteration where the primal residual and the dual residual
both fall strictly below the tolerance, the iteration counter is
incremented once more and the loop terminates on that same iteration:
no further iterations are executed (the result is returned immediately,
whatever budget is left) and no penalty adjustment is applied (the
returned penalty is the iteration's entry penalty and `u` is not
rescaled). -/
theorem admm_convergence_terminates (projection : M → M)
    (selection : M → ℚ → M) (normF : M → ℚ) (input : M)
    (admm_adjust tolerance : ℚ) (fuel niter : ℕ) (st : AdmmState M)
    (x z u : M)
    (hx : x = specProjectionStep projection input st.z st.u st.penalty)
    (hz : z = specSelectionStep selection x st.u st.penalty)
    (hu : u = specDualUpdate st.u x z)
    (hrr : specPrimalResidual normF x z < tolerance)
    (hss : specDualResidual normF st.penalty z st.z < tolerance) :
    admmLoop projection selection normF input admm_adjust tolerance
      (fuel + 1) niter st = (niter + 1, ⟨z, u, st.penalty⟩) := by
  subst hx hz hu
  rw [admmLoop_succ]
  exact if_pos ⟨hrr, hss⟩

/-- Witness for C2 at a concrete input: 1×1 matrices over `ℚ`, identity
operators, zero input and state, unit penalty, tolerance 1. -/
theorem admm_convergence_terminates_witness :
    ((0 : ℚ) = specProjectionStep identityProjection 0 0 0 1
      ∧ (0 : ℚ) = specSelectionStep identitySelection 0 0 1
      ∧ (0 : ℚ) = specDualUpdate 0 0 0
      ∧ specPrimalResidual absQ (0 : ℚ) 0 < 1
      ∧ specDualResidual absQ 1 (0 : ℚ) 0 < 1)
    ∧ admmLoop identityProjection identitySelection absQ (0 : ℚ) 2 1
        (0 + 1) 0 ⟨0, 0, 1⟩ = (0 + 1, ⟨0, 0, 1⟩) := by
  have h1 : (0 : ℚ) = specProjectionStep identityProjection 0 0 0 1 := by
    simp [specProjectionStep, identityProjection]
  have h2 : (0 : ℚ) = specSelectionStep identitySelection 0 0 1 := by
    simp [specSelectionStep, identitySelection]
  have h3 : (0 : ℚ) = specDualUpdate 0 0 0 := by
    simp [specDualUpdate]
  have h4 : specPrimalResidual absQ (0 : ℚ) 0 < 1 := by
    simp [specPrimalResidual, absQ]
  have h5 : specDualResidual absQ 1 (0 : ℚ) 0 < 1 := by
    simp [specDualResidual, absQ]
  exact ⟨⟨h1, h2, h3, h4, h5⟩,
    admm_convergence_terminates identityProjection identitySelection absQ 0
      2 1 0 0 ⟨0, 0, 1⟩ 0 0 0 h1 h2 h3 h4 h5⟩

/-- One-step unfolding of the loop of `admm`, with the step quantities
written out via the spec-side definitions (no local lets), for use in
rewriting. -/
theorem admmLoop_succ_spec (projection : M → M) (selection : M → ℚ → M)
    (normF : M → ℚ) (input : M) (admm_adjust tolerance : ℚ)
    (fuel niter : ℕ) (st : AdmmState M) :
    admmLoop projection selection normF input admm_adjust tolerance
      (fuel + 1) niter st =
    (if specPrimalResidual normF
          (specProjectionStep projection input st.z st.u st.penalty)
          (specSelectionStep selection
            (specProjectionStep projection input st.z st.u st.penalty)
            st.u st.penalty) < tolerance
        ∧ specDualResidual normF st.penalty
          (specSelectionStep selection
            (specProjectionStep projection input st.z st.u st.penalty)
            st.u st.penalty) st.z < tolerance then
       (niter + 1,
         ⟨specSelectionStep selection
            (specProjectionStep projection input st.z st.u st.penalty)
            st.u st.penalty,
          specDualUpdate st.u
            (specProjectionStep projection input st.z st.u st.penalty)
            (specSelectionStep selection
              (specProjectionStep projection input st.z st.u st.penalty)
              st.u st.penalty),
          st.penalty⟩)
     else if specPrimalResidual normF
          (specProjectionStep projection input st.z st.u st.penalty)
          (specSelectionStep selection
            (specProjectionStep projection input st.z st.u st.penalty)
            st.u st.penalty) >
         10 * specDualResidual normF st.penalty
          (specSelectionStep selection
            (specProjectionStep projection input st.z st.u st.penalty)
            st.u st.penalty) st.z then
       admmLoop projection selection normF input admm_adjust tolerance
         fuel (niter + 1)
         ⟨specSelectionStep selection
            (specProjectionStep projection input st.z st.u st.penalty)
            st.u st.penalty,
          admm_adjust⁻¹ • specDualUpdate st.u
            (specProjectionStep projection input st.z st.u st.penalty)
            (specSelectionStep selection
              (specProjectionStep projection input st.z st.u st.penalty)
              st.u st.penalty),
          st.penalty * admm_adjust⟩
     else if specDualResidual normF st.penalty
          (specSelectionStep selection
            (specProjectionStep projection input st.z st.u st.penalty)
            st.u st.penalty) st.z >
         10 * specPrimalResidual normF
          (specProjectionStep projection input st.z st.u st.penalty)
          (specSelectionStep selection
            (specProjectionStep projection input st.z st.u st.penalty)
            st.u st.penalty) then
       admmLoop projection selection normF input admm_adjust tolerance
         fuel (niter + 1)
         ⟨specSelectionStep selection
            (specProjectionStep projection input st.z st.u st.penalty)
            st.u st.penalty,
          admm_adjust • specDualUpdate st.u
            (specProjectionStep projection input st.z st.u st.penalty)
            (specSelectionStep selection
              (specProjectionStep projection input st.z st.u st.penalty)
              st.u st.penalty),
          st.penalty / admm_adjust⟩
     else
       admmLoop projection selection normF input admm_adjust tolerance
         fuel (niter + 1)
         ⟨specSelectionStep selection
            (specProjectionStep projection input st.z st.u st.penalty)
            st.u st.penalty,
          specDualUpdate st.u
            (specProjectionStep projection input st.z st.u st.penalty)
            (specSelectionStep selection
              (specProjectionStep projection input st.z st.u st.penalty)
              st.u st.penalty),
          st.penalty⟩) := rfl

/-- C3: on an iteration that fails the convergence check: if `r > 10·s`
the penalty is multiplied by exactly the adjustment factor and `u` (the
post-dual-update value) is divided by that factor; if `s > 10·r` the
penalty is divided by the factor and `u` is multiplied by it; and in
the dead zone `10·s ≥ r` and `10·r ≥ s` both are left unchanged — in
each case the loop then continues with the next iteration.  The
hypothesis `0 ≤ r` is the Frobenius-norm nonnegativity contract of the
external linear-algebra library; it makes the first two cases mutually
exclusive, as the source's else-if chain assumes. -/
theorem admm_penalty_adjustment (projection : M → M)
    (selection : M → ℚ → M) (normF : M → ℚ) (input : M)
    (admm_adjust tolerance : ℚ) (fuel niter : ℕ) (st : AdmmState M)
    (x z u : M) (rr ss : ℚ)
    (hx : x = specProjectionStep projection input st.z st.u st.penalty)
    (hz : z = specSelectionStep selection x st.u st.penalty)
    (hu : u = specDualUpdate st.u x z)
    (hrr : rr = specPrimalResidual normF x z)
    (hss : ss = specDualResidual normF st.penalty z st.z)
    (hnc : ¬(rr < tolerance ∧ ss < tolerance))
    (hrr0 : 0 ≤ rr) :
    (rr > 10 * ss →
      admmLoop projection selection normF input admm_adjust tolerance
        (fuel + 1) niter st =
      admmLoop projection selection normF input admm_adjust tolerance
        fuel (niter + 1) ⟨z, admm_adjust⁻¹ • u, st.penalty * admm_adjust⟩)
    ∧ (ss > 10 * rr →
      admmLoop projection selection normF input admm_adjust tolerance
        (fuel + 1) niter st =
      admmLoop projection selection normF input admm_adjust tolerance
        fuel (niter + 1) ⟨z, admm_adjust • u, st.penalty / admm_adjust⟩)
    ∧ (10 * ss ≥ rr ∧ 10 * rr ≥ ss →
      admmLoop projection selection normF input admm_adjust tolerance
        (fuel + 1) niter st =
      admmLoop projection selection normF input admm_adjust tolerance
        fuel (niter + 1) ⟨z, u, st.penalty⟩) := by
  subst hx hz hu hrr hss
  refine ⟨fun hgt => ?_, fun hgt => ?_, fun hdead => ?_⟩
  · rw [admmLoop_succ_spec, if_neg hnc, if_pos hgt]
  · have hngt : ¬(specPrimalResidual normF
        (specProjectionStep projection input st.z st.u st.penalty)
        (specSelectionStep selection
          (specProjectionStep projection input st.z st.u st.penalty)
          st.u st.penalty) >
        10 * specDualResidual normF st.penalty
          (specSelectionStep selection
            (specProjectionStep projection input st.z st.u st.penalty)
            st.u st.penalty) st.z) := by
      intro hgt2
      nlinarith
    rw [admmLoop_succ_spec, if_neg hnc, if_neg hngt, if_pos hgt]
  · rw [admmLoop_succ_spec, if_neg hnc, if_neg (not_lt.mpr hdead.1),
      if_neg (not_lt.mpr hdead.2)]

/-- Witness for C3 at a concrete input: 1×1 matrices over `ℚ`, identity
operators, state `z = 1`, `u = 0`, zero input, unit penalty, tolerance 0
(so the convergence check fails: both residuals are 0). -/
theorem admm_penalty_adjustment_witness :
    ((1 : ℚ) = specProjectionStep identityProjection 0 1 0 1
      ∧ (1 : ℚ) = specSelectionStep identitySelection 1 0 1
      ∧ (0 : ℚ) = specDualUpdate 0 1 1
      ∧ (0 : ℚ) = specPrimalResidual absQ 1 1
      ∧ (0 : ℚ) = specDualResidual absQ 1 1 1
      ∧ ¬((0 : ℚ) < 0 ∧ (0 : ℚ) < 0)
      ∧ (0 : ℚ) ≤ 0)
    ∧ ((0 : ℚ) > 10 * 0 →
        admmLoop identityProjection identitySelection absQ (0 : ℚ) 2 0
          (0 + 1) 0 ⟨1, 0, 1⟩ =
        admmLoop identityProjection identitySelection absQ (0 : ℚ) 2 0
          0 (0 + 1) ⟨1, (2 : ℚ)⁻¹ • (0 : ℚ), 1 * 2⟩)
      ∧ ((0 : ℚ) > 10 * 0 →
        admmLoop identityProjection identitySelection absQ (0 : ℚ) 2 0
          (0 + 1) 0 ⟨1, 0, 1⟩ =
        admmLoop identityProjection identitySelection absQ (0 : ℚ) 2 0
          0 (0 + 1) ⟨1, (2 : ℚ) • (0 : ℚ), 1 / 2⟩)
      ∧ (10 * (0 : ℚ) ≥ 0 ∧ 10 * (0 : ℚ) ≥ 0 →
        admmLoop identityProjection identitySelection absQ (0 : ℚ) 2 0
          (0 + 1) 0 ⟨1, 0, 1⟩ =
        admmLoop identityProjection identitySelection absQ (0 : ℚ) 2 0
          0 (0 + 1) ⟨1, 0, 1⟩) := by
  have h1 : (1 : ℚ) = specProjectionStep identityProjection 0 1 0 1 := by
    simp [specProjectionStep, identityProjection]
  have h2 : (1 : ℚ) = specSelectionStep identitySelection 1 0 1 := by
    simp [specSelectionStep, identitySelection]
  have h3 : (0 : ℚ) = specDualUpdate 0 1 1 := by
    simp [specDualUpdate]
  have h4 : (0 : ℚ) = specPrimalResidual absQ 1 1 := by
    simp [specPrimalResidual, absQ]
  have h5 : (0 : ℚ) = specDualResidual absQ 1 1 1 := by
    simp [specDualResidual, absQ]
  have h6 : ¬((0 : ℚ) < 0 ∧ (0 : ℚ) < 0) := by norm_num
  have h7 : (0 : ℚ) ≤ 0 := le_refl 0
  exact ⟨⟨h1, h2, h3, h4, h5, h6, h7⟩,
    admm_penalty_adjustment identityProjection identitySelection absQ 0
      2 0 0 0 ⟨1, 0, 1⟩ 1 1 0 0 0 h1 h2 h3 h4 h5 h6 h7⟩

/-- C9: for every call to solve with maxiter ≤ 0 (including negative
values), the loop body never executes: the function returns 0 and
`z`, `u`, and the penalty are left unchanged. -/
theorem admm_nonpositive_maxiter (projection : M → M)
    (selection : M → ℚ → M) (normF : M → ℚ) (input z u : M)
    (admm_penalty admm_adjust : ℚ) (maxiter : ℤ) (tolerance : ℚ)
    (h : maxiter ≤ 0) :
    admm projection selection normF input z u admm_penalty admm_adjust
      maxiter tolerance = (0, ⟨z, u, admm_penalty⟩) := by
  unfold admm
  rw [Int.toNat_of_nonpos h]
  rfl

/-- Witness for C9 at a concrete input: maxiter = -1. -/
theorem admm_nonpositive_maxiter_witness :
    (-1 : ℤ) ≤ 0
    ∧ admm identityProjection identitySelection absQ (0 : ℚ) 0 0 1 2 (-1) 1
        = (0, (⟨0, 0, 1⟩ : AdmmState ℚ)) :=
  ⟨by decide,
    admm_nonpositive_maxiter identityProjection identitySelection absQ 0 0 0
      1 2 (-1) 1 (by decide)⟩

/-- The iteration count returned by the loop is bounded by the entry
counter plus the remaining budget. -/
theorem admmLoop_count_le (projection : M → M) (selection : M → ℚ → M)
    (normF : M → ℚ) (input : M) (admm_adjust tolerance : ℚ) :
    ∀ (fuel niter : ℕ) (st : AdmmState M),
      (admmLoop projection selection normF input admm_adjust tolerance
        fuel niter st).1 ≤ niter + fuel := by
  intro fuel
  induction fuel with
  | zero =>
      intro niter st
      simp [admmLoop]
  | succ fuel ih =>
      intro niter st
      rw [admmLoop_succ_spec]
      split_ifs
      · simp
      · exact le_trans (ih (niter + 1) _) (by omega)
      · exact le_trans (ih (niter + 1) _) (by omega)
      · exact le_trans (ih (niter + 1) _) (by omega)

/-- C4 (counterexample): the claim fails in both directions at concrete
inputs.  A call with maxiter = 1 whose single iteration satisfies the
tolerance (both spec residuals are 0 < 1) still returns 1 = maxiter, so
a returned count equal to maxiter does not imply non-convergence; and a
call with maxiter = -1 returns 0, which exceeds maxiter, so the count
is not always at most maxiter. -/
theorem admm_count_counterexample :
    (admm identityProjection identitySelection absQ (0 : ℚ) 0 0 1 2 1 1
        = (1, (⟨0, 0, 1⟩ : AdmmState ℚ))
      ∧ specPrimalResidual absQ
          (specProjectionStep identityProjection (0 : ℚ) 0 0 1)
          (specSelectionStep identitySelection
            (specProjectionStep identityProjection (0 : ℚ) 0 0 1) 0 1) < 1
      ∧ specDualResidual absQ 1
          (specSelectionStep identitySelection
            (specProjectionStep identityProjection (0 : ℚ) 0 0 1) 0 1) 0 < 1)
    ∧ ((admm identityProjection identitySelection absQ (0 : ℚ) 0 0 1 2 (-1)
          1).1 = 0
      ∧ ¬((0 : ℤ) ≤ -1) ) := by
  refine ⟨⟨?_, ?_, ?_⟩, ?_, by decide⟩
  · simp [admm, admmLoop, identityProjection, identitySelection, absQ]
  · simp [specPrimalResidual, specProjectionStep, specSelectionStep,
      identityProjection, identitySelection, absQ]
  · simp [specDualResidual, specProjectionStep, specSelectionStep,
      identityProjection, identitySelection, absQ]
  · simp [admm, admmLoop]

/-- C4 (amended): for every call to solve, the returned iteration count
is at most max(maxiter, 0) — at most maxiter when maxiter ≥ 0, and 0
when maxiter ≤ 0. -/
theorem admm_count_le_maxiter (projection : M → M) (selection : M → ℚ → M)
    (normF : M → ℚ) (input z u : M) (admm_penalty admm_adjust : ℚ)
    (maxiter : ℤ) (tolerance : ℚ) :
    (admm projection selection normF input z u admm_penalty admm_adjust
      maxiter tolerance).1 ≤ max maxiter 0 := by
  have h := admmLoop_count_le projection selection normF input admm_adjust
    tolerance maxiter.toNat 0 ⟨z, u, admm_penalty⟩
  rw [Nat.zero_add] at h
  calc (admm projection selection normF input z u admm_penalty admm_adjust
      maxiter tolerance).1
      = ((admmLoop projection selection normF input admm_adjust tolerance
          maxiter.toNat 0 ⟨z, u, admm_penalty⟩).1 : ℤ) := rfl
    _ ≤ (maxiter.toNat : ℤ) := by exact_mod_cast h
    _ = max maxiter 0 := Int.toNat_eq_max maxiter

/-- The penalty adjustment only multiplies or divides by the adjustment
factor, so a positive penalty stays positive through the loop when the
factor exceeds 1. -/
theorem admmLoop_penalty_pos (projection : M → M) (selection : M → ℚ → M)
    (normF : M → ℚ) (input : M) (admm_adjust tolerance : ℚ)
    (hadj : 1 < admm_adjust) :
    ∀ (fuel niter : ℕ) (st : AdmmState M), 0 < st.penalty →
      0 < (admmLoop projection selection normF input admm_adjust tolerance
        fuel niter st).2.penalty := by
  have hadj0 : (0 : ℚ) < admm_adjust := lt_trans one_pos hadj
  intro fuel
  induction fuel with
  | zero =>
      intro niter st h
      simpa [admmLoop] using h
  | succ fuel ih =>
      intro niter st h
      rw [admmLoop_succ_spec]
      split_ifs
      · simpa using h
      · exact ih (niter + 1) _ (mul_pos h hadj0)
      · exact ih (niter + 1) _ (div_pos h hadj0)
      · exact ih (niter + 1) _ h

/-- C7: for every call to solve with a positive penalty at entry and an
adjustment factor exceeding 1, the penalty is strictly positive after
every iteration (the final penalty of every partial run, i.e. of the
run truncated to any budget, is positive) and at return. -/
theorem admm_penalty_stays_positive (projection : M → M)
    (selection : M → ℚ → M) (normF : M → ℚ) (input z u : M)
    (admm_penalty admm_adjust : ℚ) (maxiter : ℤ) (tolerance : ℚ)
    (hpen : 0 < admm_penalty) (hadj : 1 < admm_adjust) :
    (∀ (fuel niter : ℕ),
      0 < (admmLoop projection selection normF input admm_adjust tolerance
        fuel niter ⟨z, u, admm_penalty⟩).2.penalty)
    ∧ 0 < (admm projection selection normF input z u admm_penalty
        admm_adjust maxiter tolerance).2.penalty :=
  ⟨fun fuel niter => admmLoop_penalty_pos projection selection normF input
      admm_adjust tolerance hadj fuel niter ⟨z, u, admm_penalty⟩ hpen,
    admmLoop_penalty_pos projection selection normF input admm_adjust
      tolerance hadj maxiter.toNat 0 ⟨z, u, admm_penalty⟩ hpen⟩

/-- Witness for C7 at a concrete input: penalty 1, factor 2. -/
theorem admm_penalty_stays_positive_witness :
    ((0 : ℚ) < 1 ∧ (1 : ℚ) < 2)
    ∧ ((∀ (fuel niter : ℕ),
        0 < (admmLoop identityProjection identitySelection absQ (0 : ℚ) 2 1
          fuel niter ⟨0, 0, 1⟩).2.penalty)
      ∧ 0 < (admm identityProjection identitySelection absQ (0 : ℚ) 0 0 1 2
          3 1).2.penalty) :=
  ⟨⟨by norm_num, by norm_num⟩,
    admm_penalty_stays_positive identityProjection identitySelection absQ 0
      0 0 1 2 3 1 (by norm_num) (by norm_num)⟩

/-- One-step unfolding of the loop of `admm_benchmark`, with the step
quantities written out via the spec-side definitions (no local lets). -/
theorem admmBenchmarkLoop_succ_spec (projection : M → M)
    (selection : M → ℚ → M) (normF : M → ℚ) (clock : ℕ → ℚ)
    (eigProj : M → M) (input truth : M) (admm_adjust tolerance : ℚ)
    (fuel niter : ℕ) (st : BenchState M) :
    admmBenchmarkLoop projection selection normF clock eigProj input truth
      admm_adjust tolerance (fuel + 1) niter st =
    (if specPrimalResidual normF
          (specProjectionStep projection input st.z st.u st.penalty)
          (specSelectionStep selection
            (specProjectionStep projection input st.z st.u st.penalty)
            st.u st.penalty) < tolerance
        ∧ specDualResidual normF st.penalty
          (specSelectionStep selection
            (specProjectionStep projection input st.z st.u st.penalty)
            st.u st.penalty) st.z < tolerance then
       (niter + 1,
         ⟨specSelectionStep selection
            (specProjectionStep projection input st.z st.u st.penalty)
            st.u st.penalty,
          specDualUpdate st.u
            (specProjectionStep projection input st.z st.u st.penalty)
            (specSelectionStep selection
              (specProjectionStep projection input st.z st.u st.penalty)
              st.u st.penalty),
          st.penalty,
          st.errs ++ [specIterationError normF eigProj truth
            (specSelectionStep selection
              (specProjectionStep projection input st.z st.u st.penalty)
              st.u st.penalty)],
          st.times ++ [specIterationDuration clock st.clockCalls],
          st.clockCalls + 2⟩)
     else
       admmBenchmarkLoop projection selection normF clock eigProj input truth
         admm_adjust tolerance fuel (niter + 1)
         ⟨specSelectionStep selection
            (specProjectionStep projection input st.z st.u st.penalty)
            st.u st.penalty,
          (if specPrimalResidual normF
              (specProjectionStep projection input st.z st.u st.penalty)
              (specSelectionStep selection
                (specProjectionStep projection input st.z st.u st.penalty)
                st.u st.penalty) >
              10 * specDualResidual normF st.penalty
                (specSelectionStep selection
                  (specProjectionStep projection input st.z st.u st.penalty)
                  st.u st.penalty) st.z then
            (st.penalty * admm_adjust,
              admm_adjust⁻¹ • specDualUpdate st.u
                (specProjectionStep projection input st.z st.u st.penalty)
                (specSelectionStep selection
                  (specProjectionStep projection input st.z st.u st.penalty)
                  st.u st.penalty))
            else if specDualResidual normF st.penalty
                (specSelectionStep selection
                  (specProjectionStep projection input st.z st.u st.penalty)
                  st.u st.penalty) st.z >
                10 * specPrimalResidual normF
                  (specProjectionStep projection input st.z st.u st.penalty)
                  (specSelectionStep selection
                    (specProjectionStep projection input st.z st.u
                      st.penalty) st.u st.penalty) then
            (st.penalty / admm_adjust,
              admm_adjust • specDualUpdate st.u
                (specProjectionStep projection input st.z st.u st.penalty)
                (specSelectionStep selection
                  (specProjectionStep projection input st.z st.u st.penalty)
                  st.u st.penalty))
            else
            (st.penalty,
              specDualUpdate st.u
                (specProjectionStep projection input st.z st.u st.penalty)
                (specSelectionStep selection
                  (specProjectionStep projection input st.z st.u st.penalty)
                  st.u st.penalty))).2,
          (if specPrimalResidual normF
              (specProjectionStep projection input st.z st.u st.penalty)
              (specSelectionStep selection
                (specProjectionStep projection input st.z st.u st.penalty)
                st.u st.penalty) >
              10 * specDualResidual normF st.penalty
                (specSelectionStep selection
                  (specProjectionStep projection input st.z st.u st.penalty)
                  st.u st.penalty) st.z then
            (st.penalty * admm_adjust,
              admm_adjust⁻¹ • specDualUpdate st.u
                (specProjectionStep projection input st.z st.u st.penalty)
                (specSelectionStep selection
                  (specProjectionStep projection input st.z st.u st.penalty)
                  st.u st.penalty))
            else if specDualResidual normF st.penalty
                (specSelectionStep selection
                  (specProjectionStep projection input st.z st.u st.penalty)
                  st.u st.penalty) st.z >
                10 * specPrimalResidual normF
                  (specProjectionStep projection input st.z st.u st.penalty)
                  (specSelectionStep selection
                    (specProjectionStep projection input st.z st.u
                      st.penalty) st.u st.penalty) then
            (st.penalty / admm_adjust,
              admm_adjust • specDualUpdate st.u
                (specProjectionStep projection input st.z st.u st.penalty)
                (specSelectionStep selection
                  (specProjectionStep projection input st.z st.u st.penalty)
                  st.u st.penalty))
            else
            (st.penalty,
              specDualUpdate st.u
                (specProjectionStep projection input st.z st.u st.penalty)
                (specSelectionStep selection
                  (specProjectionStep projection input st.z st.u st.penalty)
                  st.u st.penalty))).1,
          st.errs ++ [specIterationError normF eigProj truth
            (specSelectionStep selection
              (specProjectionStep projection input st.z st.u st.penalty)
              st.u st.penalty)],
          st.times ++ [specIterationDuration clock st.clockCalls],
          st.clockCalls + 2⟩) := rfl

/-- The loops of `admm` and `admm_benchmark` agree step for step: from
equal `z`, `u`, penalty and counters they return the same count and the
same final `z`, `u`, penalty, for any histories and clock state. -/
theorem admmLoop_benchmark_agree (projection : M → M)
    (selection : M → ℚ → M) (normF : M → ℚ) (clock : ℕ → ℚ)
    (eigProj : M → M) (input truth : M) (admm_adjust tolerance : ℚ) :
    ∀ (fuel niter : ℕ) (z u : M) (ρ : ℚ) (errs times : List ℚ) (cc : ℕ),
      (admmLoop projection selection normF input admm_adjust tolerance
        fuel niter ⟨z, u, ρ⟩).1
        = (admmBenchmarkLoop projection selection normF clock eigProj input
            truth admm_adjust tolerance fuel niter
            ⟨z, u, ρ, errs, times, cc⟩).1
      ∧ (admmLoop projection selection normF input admm_adjust tolerance
          fuel niter ⟨z, u, ρ⟩).2.z
        = (admmBenchmarkLoop projection selection normF clock eigProj input
            truth admm_adjust tolerance fuel niter
            ⟨z, u, ρ, errs, times, cc⟩).2.z
      ∧ (admmLoop projection selection normF input admm_adjust tolerance
          fuel niter ⟨z, u, ρ⟩).2.u
        = (admmBenchmarkLoop projection selection normF clock eigProj input
            truth admm_adjust tolerance fuel niter
            ⟨z, u, ρ, errs, times, cc⟩).2.u
      ∧ (admmLoop projection selection normF input admm_adjust tolerance
          fuel niter ⟨z, u, ρ⟩).2.penalty
        = (admmBenchmarkLoop projection selection normF clock eigProj input
            truth admm_adjust tolerance fuel niter
            ⟨z, u, ρ, errs, times, cc⟩).2.penalty := by
  intro fuel
  induction fuel with
  | zero =>
      intro niter z u ρ errs times cc
      simp [admmLoop, admmBenchmarkLoop]
  | succ fuel ih =>
      intro niter z u ρ errs times cc
      rw [admmLoop_succ_spec, admmBenchmarkLoop_succ_spec]
      dsimp only
      split_ifs with h1 h2 h3
      · simp
      · exact ih (niter + 1) _ _ _ _ _ _
      · exact ih (niter + 1) _ _ _ _ _ _
      · exact ih (niter + 1) _ _ _ _ _ _

/-- The instrumented loop only appends to the history containers: the
final `errs` and `times` extend their entry values. -/
theorem admmBenchmarkLoop_history_append (projection : M → M)
    (selection : M → ℚ → M) (normF : M → ℚ) (clock : ℕ → ℚ)
    (eigProj : M → M) (input truth : M) (admm_adjust tolerance : ℚ) :
    ∀ (fuel niter : ℕ) (st : BenchState M), ∃ es ts,
      (admmBenchmarkLoop projection selection normF clock eigProj input
        truth admm_adjust tolerance fuel niter st).2.errs = st.errs ++ es
      ∧ (admmBenchmarkLoop projection selection normF clock eigProj input
          truth admm_adjust tolerance fuel niter st).2.times
        = st.times ++ ts := by
  intro fuel
  induction fuel with
  | zero =>
      intro niter st
      exact ⟨[], [], by simp [admmBenchmarkLoop], by simp [admmBenchmarkLoop]⟩
  | succ fuel ih =>
      intro niter st
      rw [admmBenchmarkLoop_succ_spec]
      set X := specProjectionStep projection input st.z st.u st.penalty
      set Z := specSelectionStep selection X st.u st.penalty
      set U := specDualUpdate st.u X Z
      set RR := specPrimalResidual normF X Z
      set SS := specDualResidual normF st.penalty Z st.z
      set E := specIterationError normF eigProj truth Z
      set T := specIterationDuration clock st.clockCalls
      split_ifs with h1 h2 h3
      · exact ⟨[E], [T], rfl, rfl⟩
      · obtain ⟨es, ts, he, ht⟩ := ih (niter + 1)
          ⟨Z, admm_adjust⁻¹ • U, st.penalty * admm_adjust,
            st.errs ++ [E], st.times ++ [T], st.clockCalls + 2⟩
        exact ⟨[E] ++ es, [T] ++ ts,
          by rw [he]; exact List.append_assoc _ _ _,
          by rw [ht]; exact List.append_assoc _ _ _⟩
      · obtain ⟨es, ts, he, ht⟩ := ih (niter + 1)
          ⟨Z, admm_adjust • U, st.penalty / admm_adjust,
            st.errs ++ [E], st.times ++ [T], st.clockCalls + 2⟩
        exact ⟨[E] ++ es, [T] ++ ts,
          by rw [he]; exact List.append_assoc _ _ _,
          by rw [ht]; exact List.append_assoc _ _ _⟩
      · obtain ⟨es, ts, he, ht⟩ := ih (niter + 1)
          ⟨Z, U, st.penalty, st.errs ++ [E], st.times ++ [T],
            st.clockCalls + 2⟩
        exact ⟨[E] ++ es, [T] ++ ts,
          by rw [he]; exact List.append_assoc _ _ _,
          by rw [ht]; exact List.append_assoc _ _ _⟩

/-- Each executed iteration of the instrumented loop appends exactly one
entry to each history: the final history lengths exceed the entry
lengths by exactly the number of iterations run (returned count minus
entry counter). -/
theorem admmBenchmarkLoop_history_length (projection : M → M)
    (selection : M → ℚ → M) (normF : M → ℚ) (clock : ℕ → ℚ)
    (eigProj : M → M) (input truth : M) (admm_adjust tolerance : ℚ) :
    ∀ (fuel niter : ℕ) (st : BenchState M),
      (admmBenchmarkLoop projection selection normF clock eigProj input
        truth admm_adjust tolerance fuel niter st).2.errs.length + niter
        = st.errs.length
          + (admmBenchmarkLoop projection selection normF clock eigProj
              input truth admm_adjust tolerance fuel niter st).1
      ∧ (admmBenchmarkLoop projection selection normF clock eigProj input
          truth admm_adjust tolerance fuel niter st).2.times.length + niter
        = st.times.length
          + (admmBenchmarkLoop projection selection normF clock eigProj
              input truth admm_adjust tolerance fuel niter st).1 := by
  intro fuel
  induction fuel with
  | zero =>
      intro niter st
      simp [admmBenchmarkLoop]
  | succ fuel ih =>
      intro niter st
      rw [admmBenchmarkLoop_succ_spec]
      set X := specProjectionStep projection input st.z st.u st.penalty
      set Z := specSelectionStep selection X st.u st.penalty
      set U := specDualUpdate st.u X Z
      set RR := specPrimalResidual normF X Z
      set SS := specDualResidual normF st.penalty Z st.z
      set E := specIterationError normF eigProj truth Z
      set T := specIterationDuration clock st.clockCalls
      split_ifs with h1 h2 h3
      · dsimp only
        simp only [List.length_append, List.length_singleton]
        omega
      · dsimp only
        obtain ⟨h1len, h2len⟩ := ih (niter + 1)
          ⟨Z, admm_adjust⁻¹ • U, st.penalty * admm_adjust,
            st.errs ++ [E], st.times ++ [T], st.clockCalls + 2⟩
        simp only [List.length_append, List.length_singleton] at h1len h2len
        omega
      · dsimp only
        obtain ⟨h1len, h2len⟩ := ih (niter + 1)
          ⟨Z, admm_adjust • U, st.penalty / admm_adjust,
            st.errs ++ [E], st.times ++ [T], st.clockCalls + 2⟩
        simp only [List.length_append, List.length_singleton] at h1len h2len
        omega
      · dsimp only
        obtain ⟨h1len, h2len⟩ := ih (niter + 1)
          ⟨Z, U, st.penalty, st.errs ++ [E], st.times ++ [T],
            st.clockCalls + 2⟩
        simp only [List.length_append, List.length_singleton] at h1len h2len
        omega

/-- C5: solve and solveInstrumented run identical iteration logic: for
every choice of operators, input, initial state, penalty, adjustment
factor, budget and tolerance (and any clock, eigensolver, ground truth
and starting histories), the two entry points return the same iteration
count and identical final `z`, `u` and penalty; the instrumented
variant differs only in appending to the history containers. -/
theorem admm_benchmark_equiv (projection : M → M) (selection : M → ℚ → M)
    (normF : M → ℚ) (clock : ℕ → ℚ) (eigProj : M → M) (input truth : M)
    (z u : M) (admm_penalty admm_adjust : ℚ) (maxiter : ℤ) (tolerance : ℚ)
    (errs times : List ℚ) (clockCalls0 : ℕ) :
    (admm projection selection normF input z u admm_penalty admm_adjust
        maxiter tolerance).1
      = (admmBenchmark projection selection normF clock eigProj input truth
          z u admm_penalty admm_adjust maxiter tolerance errs times
          clockCalls0).1
    ∧ (admm projection selection normF input z u admm_penalty admm_adjust
        maxiter tolerance).2.z
      = (admmBenchmark projection selection normF clock eigProj input truth
          z u admm_penalty admm_adjust maxiter tolerance errs times
          clockCalls0).2.z
    ∧ (admm projection selection normF input z u admm_penalty admm_adjust
        maxiter tolerance).2.u
      = (admmBenchmark projection selection normF clock eigProj input truth
          z u admm_penalty admm_adjust maxiter tolerance errs times
          clockCalls0).2.u
    ∧ (admm projection selection normF input z u admm_penalty admm_adjust
        maxiter tolerance).2.penalty
      = (admmBenchmark projection selection normF clock eigProj input truth
          z u admm_penalty admm_adjust maxiter tolerance errs times
          clockCalls0).2.penalty
    ∧ (∃ es, (admmBenchmark projection selection normF clock eigProj input
          truth z u admm_penalty admm_adjust maxiter tolerance errs times
          clockCalls0).2.errs = errs ++ es)
    ∧ (∃ ts, (admmBenchmark projection selection normF clock eigProj input
          truth z u admm_penalty admm_adjust maxiter tolerance errs times
          clockCalls0).2.times = times ++ ts) := by
  obtain ⟨h1, h2, h3, h4⟩ := admmLoop_benchmark_agree projection selection
    normF clock eigProj input truth admm_adjust tolerance maxiter.toNat 0
    z u admm_penalty errs times clockCalls0
  obtain ⟨es, ts, he, ht⟩ := admmBenchmarkLoop_history_append projection
    selection normF clock eigProj input truth admm_adjust tolerance
    maxiter.toNat 0 ⟨z, u, admm_penalty, errs, times, clockCalls0⟩
  refine ⟨?_, h2, h3, h4, ⟨es, he⟩, ⟨ts, ht⟩⟩
  unfold admm admmBenchmark
  dsimp only
  exact_mod_cast h1

/-- C6 (counterexample): the history lengths do not equal the returned
count for every call: a call given a non-empty starting timing history
(a single prior entry) converges in one iteration, returning 1, yet
leaves the timing history with 2 entries. -/
theorem admm_benchmark_history_counterexample :
    (admmBenchmark identityProjection identitySelection absQ
        (fun _ => (0 : ℚ)) (fun m => m) (0 : ℚ) 0 0 0 1 2 5 1 [] [0] 0).1
      = 1
    ∧ (admmBenchmark identityProjection identitySelection absQ
        (fun _ => (0 : ℚ)) (fun m => m) (0 : ℚ) 0 0 0 1 2 5 1 [] [0]
        0).2.times.length = 2 := by
  constructor
  · simp [admmBenchmark, admmBenchmarkLoop, identityProjection,
      identitySelection, absQ]
  · simp [admmBenchmark, admmBenchmarkLoop, identityProjection,
      identitySelection, absQ]

/-- C6 (amended): each executed iteration of solveInstrumented appends
exactly one entry to the timing history and one to the error history,
including the final iteration that satisfies the convergence check, so
after any call each history's length equals its length at entry plus
the returned iteration count (hence equals the count exactly when the
histories start empty). -/
theorem admm_benchmark_history_growth (projection : M → M)
    (selection : M → ℚ → M) (normF : M → ℚ) (clock : ℕ → ℚ)
    (eigProj : M → M) (input truth : M) (z u : M)
    (admm_penalty admm_adjust : ℚ) (maxiter : ℤ) (tolerance : ℚ)
    (errs times : List ℚ) (clockCalls0 : ℕ) :
    ((admmBenchmark projection selection normF clock eigProj input truth
        z u admm_penalty admm_adjust maxiter tolerance errs times
        clockCalls0).2.errs.length : ℤ)
      = errs.length + (admmBenchmark projection selection normF clock
          eigProj input truth z u admm_penalty admm_adjust maxiter
          tolerance errs times clockCalls0).1
    ∧ ((admmBenchmark projection selection normF clock eigProj input truth
        z u admm_penalty admm_adjust maxiter tolerance errs times
        clockCalls0).2.times.length : ℤ)
      = times.length + (admmBenchmark projection selection normF clock
          eigProj input truth z u admm_penalty admm_adjust maxiter
          tolerance errs times clockCalls0).1 := by
  obtain ⟨h1, h2⟩ := admmBenchmarkLoop_history_length projection selection
    normF clock eigProj input truth admm_adjust tolerance maxiter.toNat 0
    ⟨z, u, admm_penalty, errs, times, clockCalls0⟩
  dsimp only at h1 h2
  rw [Nat.add_zero] at h1 h2
  unfold admmBenchmark
  dsimp only
  constructor
  · exact_mod_cast h1
  · exact_mod_cast h2

/-- C10: the recorded per-iteration duration is the difference of the
two (and only two) clock samples of the iteration: the first is taken
at the start of the iteration body and the second before the rank-k
eigendecomposition and the error computation, in both the converging
and the non-converging path.  Stated over a single executed iteration
(budget 1, exercising both paths): the entry appended to the timing
history is `clock (c + 1) - clock c` where `c` is the clock-call
counter at the start of the body; the error entry is a function of the
new iterate only (no clock sample); and the counter advances by exactly
2, so no clock call happens during or after the eigenprojection. -/
theorem admm_benchmark_timing_excludes_eig (projection : M → M)
    (selection : M → ℚ → M) (normF : M → ℚ) (clock : ℕ → ℚ)
    (eigProj : M → M) (input truth : M) (admm_adjust tolerance : ℚ)
    (niter : ℕ) (st : BenchState M) :
    (admmBenchmarkLoop projection selection normF clock eigProj input truth
      admm_adjust tolerance 1 niter st).2.times
      = st.times ++ [specIterationDuration clock st.clockCalls]
    ∧ (admmBenchmarkLoop projection selection normF clock eigProj input
        truth admm_adjust tolerance 1 niter st).2.errs
      = st.errs ++ [specIterationError normF eigProj truth
          (specSelectionStep selection
            (specProjectionStep projection input st.z st.u st.penalty)
            st.u st.penalty)]
    ∧ (admmBenchmarkLoop projection selection normF clock eigProj input
        truth admm_adjust tolerance 1 niter st).2.clockCalls
      = st.clockCalls + 2 := by
  rw [admmBenchmarkLoop_succ_spec]
  split_ifs <;> exact ⟨rfl, rfl, rfl⟩

/-- A loop entry with exactly one iteration of budget always returns
the entry counter plus one, whether it converges or exhausts. -/
theorem admmLoop_one_count (projection : M → M) (selection : M → ℚ → M)
    (normF : M → ℚ) (input : M) (admm_adjust tolerance : ℚ)
    (niter : ℕ) (st : AdmmState M) :
    (admmLoop projection selection normF input admm_adjust tolerance
      1 niter st).1 = niter + 1 := by
  rw [admmLoop_succ_spec]
  split_ifs <;> rfl

/-- C8 (warm-start idempotence): if `z`, `u` are the state left by a
prior identity-operator iteration from some state `(z₀, u₀, ρ)` whose
residuals `rr`, `ss` (as computed in that prior iteration) are below
the tolerance, then a fresh call to solve starting from that exact
`z`, `u`, `ρ` with identity projection and selection operators returns
an iteration count of 1.  `normF 0 = 0` and `0 < tol` are the norm and
tolerance contracts of the caller. -/
theorem admm_warm_start (normF : M → ℚ) (input z₀ u₀ : M)
    (ρ admm_adjust tolerance : ℚ) (maxiter : ℤ)
    (hnorm0 : normF 0 = 0) (htol : 0 < tolerance) (hmax : 1 ≤ maxiter)
    (hrr : specPrimalResidual normF
      (specProjectionStep identityProjection input z₀ u₀ ρ)
      (specSelectionStep identitySelection
        (specProjectionStep identityProjection input z₀ u₀ ρ) u₀ ρ)
      < tolerance)
    (hss : specDualResidual normF ρ
      (specSelectionStep identitySelection
        (specProjectionStep identityProjection input z₀ u₀ ρ) u₀ ρ) z₀
      < tolerance) :
    (admm identityProjection identitySelection normF input
      (specSelectionStep identitySelection
        (specProjectionStep identityProjection input z₀ u₀ ρ) u₀ ρ)
      (specDualUpdate u₀
        (specProjectionStep identityProjection input z₀ u₀ ρ)
        (specSelectionStep identitySelection
          (specProjectionStep identityProjection input z₀ u₀ ρ) u₀ ρ))
      ρ admm_adjust maxiter tolerance).1 = 1 := by
  have hid2 : specDualUpdate u₀
      (specProjectionStep identityProjection input z₀ u₀ ρ)
      (specSelectionStep identitySelection
        (specProjectionStep identityProjection input z₀ u₀ ρ) u₀ ρ)
      = 0 := by
    show u₀ + (z₀ - u₀ + ρ⁻¹ • input) - ((z₀ - u₀ + ρ⁻¹ • input) + u₀) = 0
    abel
  have hid1 : specSelectionStep identitySelection
      (specProjectionStep identityProjection input z₀ u₀ ρ) u₀ ρ
      = z₀ + ρ⁻¹ • input := by
    show (z₀ - u₀ + ρ⁻¹ • input) + u₀ = z₀ + ρ⁻¹ • input
    abel
  have hprim : ∀ z : M, specPrimalResidual normF
      (specProjectionStep identityProjection input z 0 ρ)
      (specSelectionStep identitySelection
        (specProjectionStep identityProjection input z 0 ρ) 0 ρ)
      = normF 0 := by
    intro z
    show normF ((z - 0 + ρ⁻¹ • input) - ((z - 0 + ρ⁻¹ • input) + 0))
      = normF 0
    congr 1
    abel
  have hdual : ∀ z : M, specDualResidual normF ρ
      (specSelectionStep identitySelection
        (specProjectionStep identityProjection input z 0 ρ) 0 ρ) z
      = ρ * normF (ρ⁻¹ • input) := by
    intro z
    show ρ * normF (((z - 0 + ρ⁻¹ • input) + 0) - z)
      = ρ * normF (ρ⁻¹ • input)
    have harg : ((z - 0 + ρ⁻¹ • input) + 0) - z = ρ⁻¹ • input := by abel
    rw [harg]
  have hss2 : ρ * normF (ρ⁻¹ • input) < tolerance := by
    rw [hid1] at hss
    have e : specDualResidual normF ρ (z₀ + ρ⁻¹ • input) z₀
        = ρ * normF (ρ⁻¹ • input) := by
      show ρ * normF ((z₀ + ρ⁻¹ • input) - z₀) = ρ * normF (ρ⁻¹ • input)
      have harg : (z₀ + ρ⁻¹ • input) - z₀ = ρ⁻¹ • input := by abel
      rw [harg]
    rw [e] at hss
    exact hss
  unfold admm
  dsimp only
  obtain ⟨k, hk⟩ : ∃ k, maxiter.toNat = k + 1 :=
    ⟨maxiter.toNat - 1, by omega⟩
  rw [hk, hid2, hid1, admmLoop_succ_spec]
  dsimp only
  rw [hprim, hdual, hnorm0]
  rw [if_pos ⟨htol, hss2⟩]
  norm_num

/-- Witness for C8 at a concrete input: 1×1 matrices over `ℚ`, zero
prior state and input, unit penalty, tolerance 1, maxiter 1. -/
theorem admm_warm_start_witness :
    (absQ 0 = 0 ∧ (0 : ℚ) < 1 ∧ (1 : ℤ) ≤ 1
      ∧ specPrimalResidual absQ
          (specProjectionStep identityProjection (0 : ℚ) 0 0 1)
          (specSelectionStep identitySelection
            (specProjectionStep identityProjection (0 : ℚ) 0 0 1) 0 1) < 1
      ∧ specDualResidual absQ 1
          (specSelectionStep identitySelection
            (specProjectionStep identityProjection (0 : ℚ) 0 0 1) 0 1) 0
          < 1)
    ∧ (admm identityProjection identitySelection absQ (0 : ℚ)
        (specSelectionStep identitySelection
          (specProjectionStep identityProjection (0 : ℚ) 0 0 1) 0 1)
        (specDualUpdate 0
          (specProjectionStep identityProjection (0 : ℚ) 0 0 1)
          (specSelectionStep identitySelection
            (specProjectionStep identityProjection (0 : ℚ) 0 0 1) 0 1))
        1 2 1 1).1 = 1 := by
  have h1 : absQ 0 = 0 := by simp [absQ]
  have h2 : (0 : ℚ) < 1 := by norm_num
  have h3 : (1 : ℤ) ≤ 1 := le_refl 1
  have h4 : specPrimalResidual absQ
      (specProjectionStep identityProjection (0 : ℚ) 0 0 1)
      (specSelectionStep identitySelection
        (specProjectionStep identityProjection (0 : ℚ) 0 0 1) 0 1) < 1 := by
    simp [specPrimalResidual, specProjectionStep, specSelectionStep,
      identityProjection, identitySelection, absQ]
  have h5 : specDualResidual absQ 1
      (specSelectionStep identitySelection
        (specProjectionStep identityProjection (0 : ℚ) 0 0 1) 0 1) 0
      < 1 := by
    simp [specDualResidual, specProjectionStep, specSelectionStep,
      identityProjection, identitySelection, absQ]
  exact ⟨⟨h1, h2, h3, h4, h5⟩,
    admm_warm_start absQ 0 0 0 1 2 1 1 h1 h2 h3 h4 h5⟩
